import Mathlib

/-!
# Verification of the anomalies-map component and the actions saved-objects registration

Shallow embedding of two source units:

* `src/unnamed/part_000`: a React component rendering an anomaly-count
  choropleth map.  The pure logic embedded here is `getAnomalyRows`
  (per-entity aggregation), `getChoroplethAnomaliesLayer` (layer
  construction), the entity-value sampling loop of `getEMSTermSuggestions`,
  and the `layerList` construction.
* `src/x-pack/plugins/actions/server/saved_objects/index.ts`:
  `setupSavedObjects`, declarative registration of two saved-object types.

JavaScript values that can be `undefined` are embedded as `Option`;
numbers are embedded as `Rat` (the component only compares and floors
severities, so exact rationals model every behavior the properties
mention).  JavaScript object keys are strings: indexing an object with
`undefined` uses the property key "undefined", which `jsKey` models.
-/

/-- The string a JavaScript engine uses as property key for an
`entityValue` that may be `undefined`: `obj[undefined]` reads and writes
the property named "undefined". -/
def jsKey : Option String → String
  | none => "undefined"
  | some s => s

/-- The fields of `AnomaliesTableRecord` read by this component: a job
identifier, an entity name/value pair (possibly absent), and a severity
score. -/
structure AnomalyRecord where
  jobId : String
  entityName : Option String
  entityValue : Option String
  severity : Rat
deriving DecidableEq

/-- One aggregated row, as built by `getAnomalyRows`
(src/unnamed/part_000 lines 49-61). -/
structure AnomalyRow where
  count : Nat
  entityValue : Option String
  max_severity : Int
deriving DecidableEq

/-- The row created for the first record of a key
(src/unnamed/part_000 lines 51-55). -/
def newRow (a : AnomalyRecord) : AnomalyRow :=
  { count := 1, entityValue := a.entityValue, max_severity := ⌊a.severity⌋ }

/-- The in-place update for a further record of an existing key
(src/unnamed/part_000 lines 57-60): bump the count, and raise
`max_severity` when the raw severity exceeds the stored floored value. -/
def updateRow (r : AnomalyRow) (a : AnomalyRecord) : AnomalyRow :=
  { count := r.count + 1, entityValue := r.entityValue,
    max_severity :=
      if (r.max_severity : Rat) < a.severity then ⌊a.severity⌋ else r.max_severity }

/-- The `anomalyRows` accumulator object, as an association list in key
insertion order (JavaScript objects enumerate string keys in insertion
order; no stated property depends on row order). -/
abbrev RowState := List (String × AnomalyRow)

/-- `anomalyRows[location] === undefined ? create : update`: update the
entry whose key is the record's JS key, or append a fresh entry. -/
def insertAnomaly (a : AnomalyRecord) : RowState → RowState
  | [] => [(jsKey a.entityValue, newRow a)]
  | (k, r) :: rest =>
    if k = jsKey a.entityValue then (k, updateRow r a) :: rest
    else (k, r) :: insertAnomaly a rest

/-- One iteration of the `getAnomalyRows` loop: skip records of other
jobs (`if (anomaly.jobId !== jobId) continue`), otherwise fold the record
into the accumulator object. -/
def processAnomaly (jobId : String) (st : RowState) (a : AnomalyRecord) : RowState :=
  if a.jobId ≠ jobId then st else insertAnomaly a st

/-- The accumulator object after the whole loop of `getAnomalyRows`. -/
def anomalyRowsState (anomalies : List AnomalyRecord) (jobId : String) : RowState :=
  anomalies.foldl (processAnomaly jobId) []

/-- `getAnomalyRows` (src/unnamed/part_000 lines 39-64):
aggregate the records of the given job by entity value and return
`Object.values` of the accumulator. -/
def getAnomalyRows (anomalies : List AnomalyRecord) (jobId : String) : List AnomalyRow :=
  (anomalyRowsState anomalies jobId).map Prod.snd

/-! ## Entity-value sampling (`getEMSTermSuggestions`, lines 157-199) -/

/-- `MAX_ENTITY_VALUES` (line 31). -/
def MAX_ENTITY_VALUES : Nat := 3

/-- `COMMON_EMS_LAYER_IDS` (lines 32-37). -/
def COMMON_EMS_LAYER_IDS : List String :=
  ["world_countries", "administrative_regions_lvl2", "usa_zip_codes", "usa_states"]

/-- The pair of checks `x !== '' && x !== undefined` applied to
`entityValue` and to `entityName` (lines 167-170). -/
def definedNonEmpty : Option String → Bool
  | none => false
  | some s => !(s == "")

/-- The full guard of the sampling loop body (lines 165-171): the record
belongs to the job and has a defined, non-empty entity value and name. -/
def sampleGuard (jobId : String) (a : AnomalyRecord) : Bool :=
  a.jobId == jobId && definedNonEmpty a.entityValue && definedNonEmpty a.entityName

/-- JavaScript falsiness of an optional string (`!entityName` is true for
`undefined` and for the empty string). -/
def jsFalsy : Option String → Bool
  | none => true
  | some s => s == ""

/-- `Set.add`: JavaScript sets keep insertion order and ignore
duplicates, modelled as a duplicate-free list. -/
def setAdd (vals : List String) (v : String) : List String :=
  if v ∈ vals then vals else vals ++ [v]

/-- The sampling loop of `getEMSTermSuggestions` (lines 162-184): walk
the records, collecting distinct entity values of the job into a set and
remembering the first entity name; after each iteration stop when the
set has `MAX_ENTITY_VALUES` elements. -/
def sampleLoop (jobId : String) :
    List AnomalyRecord → List String → Option String → List String × Option String
  | [], vals, name => (vals, name)
  | a :: rest, vals, name =>
    let vals' := if sampleGuard jobId a then setAdd vals (a.entityValue.getD "") else vals
    let name' := if sampleGuard jobId a && jsFalsy name then a.entityName else name
    if vals'.length = MAX_ENTITY_VALUES then (vals', name')
    else sampleLoop jobId rest vals' name'

/-- The sampled entity values (in insertion order, as `Array.from` of the
set) and the remembered entity name for one job identifier. -/
def sampleEntityValues (anomalies : List AnomalyRecord) (jobId : String) :
    List String × Option String :=
  sampleLoop jobId anomalies [] none

/-- `entityName || ''` (line 189): the remembered name, or the empty
string when it is still falsy. -/
def jsOrEmptyString (n : Option String) : String :=
  if jsFalsy n then "" else n.getD ""

/-- The `sampleValuesColumnName` sent to the suggestion service for one
job identifier. -/
def sampleValuesColumnName (anomalies : List AnomalyRecord) (jobId : String) : String :=
  jsOrEmptyString (sampleEntityValues anomalies jobId).2

/-! ## Suggestion orchestration (`getEMSTermSuggestions`, lines 186-198) -/

/-- The external suggestion result `EMSTermJoinConfig`. -/
structure EMSTermJoinConfig where
  layerId : String
  field : String
deriving DecidableEq

/-- `MLEMSTermJoinConfig` (lines 145-147): a suggestion tagged with the
job identifier it was requested for. -/
structure MLEMSTermJoinConfig where
  layerId : String
  field : String
  jobId : String
deriving DecidableEq

/-- The argument object passed to `mapsPlugin.suggestEMSTermJoinConfig`
(lines 186-190). -/
structure EMSSuggestRequest where
  emsLayerIds : List String
  sampleValues : List String
  sampleValuesColumnName : String
deriving DecidableEq

/-- The request built for one job identifier. -/
def suggestionRequest (anomalies : List AnomalyRecord) (jobId : String) : EMSSuggestRequest :=
  { emsLayerIds := COMMON_EMS_LAYER_IDS,
    sampleValues := (sampleEntityValues anomalies jobId).1,
    sampleValuesColumnName := sampleValuesColumnName anomalies jobId }

/-- One job identifier step of the orchestrator (lines 161-195): ask the
external service (embedded as the function `suggest`) and tag a non-null
result with the job identifier (`{ jobId, ...suggestion }`). -/
def suggestionFor (suggest : EMSSuggestRequest → Option EMSTermJoinConfig)
    (anomalies : List AnomalyRecord) (jobId : String) : Option MLEMSTermJoinConfig :=
  match suggest (suggestionRequest anomalies jobId) with
  | some s => some { layerId := s.layerId, field := s.field, jobId := jobId }
  | none => none

/-- The value stored by `setEMSSuggestions` (line 198): the per-job
results with the null ones filtered out
(`suggestions.filter((s) => s !== null)`). -/
def getEMSTermSuggestions (suggest : EMSSuggestRequest → Option EMSTermJoinConfig)
    (anomalies : List AnomalyRecord) (jobIds : List String) :
    List (Option MLEMSTermJoinConfig) :=
  (jobIds.map (suggestionFor suggest anomalies)).filter (fun s => s.isSome)

/-! ## Layer construction (`getChoroplethAnomaliesLayer`, lines 66-138) -/

/-- `SOURCE_TYPES.TABLE_SOURCE` from maps/common/constants (not under
src/); the claims only compare it for equality, never to a literal. -/
def TABLE_SOURCE : String := "TABLE_SOURCE"

/-- `STYLE_TYPE.STATIC` from maps/common/constants. -/
def STYLE_TYPE_STATIC : String := "STATIC"

/-- `STYLE_TYPE.DYNAMIC` from maps/common/constants. -/
def STYLE_TYPE_DYNAMIC : String := "DYNAMIC"

/-- `COLOR_MAP_TYPE.ORDINAL` from maps/common/constants. -/
def COLOR_MAP_TYPE_ORDINAL : String := "ORDINAL"

/-- `FIELD_ORIGIN.JOIN` from maps/common/constants. -/
def FIELD_ORIGIN_JOIN : String := "join"

/-- One `__columns` entry of the table source (lines 85-98). -/
structure TableColumn where
  name : String
  type : String
deriving DecidableEq

/-- The `right` table source of the join descriptor (lines 81-101). -/
structure TableSourceDescriptor where
  id : String
  type : String
  rows : List AnomalyRow
  columns : List TableColumn
  term : String
deriving DecidableEq

/-- One entry of `joins` (lines 78-102). -/
structure JoinDescriptor where
  leftField : String
  right : TableSourceDescriptor
deriving DecidableEq

/-- The `sourceDescriptor` (lines 104-107). -/
structure EMSFileSourceDescriptor where
  type : String
  id : String
deriving DecidableEq

/-- The static `icon` style entry (line 112). -/
structure IconStyle where
  type : String
  value : String
deriving DecidableEq

/-- The dynamic `fillColor` style entry (lines 113-126). -/
structure FillColorStyle where
  type : String
  color : String
  colorCategory : String
  fieldMetaIsEnabled : Bool
  fieldMetaSigma : Nat
  colorMapType : String
  fieldName : String
  fieldOrigin : String
  useCustomColorRamp : Bool
deriving DecidableEq

/-- The dynamic `lineColor` style entry (lines 127-130). -/
structure LineColorStyle where
  type : String
  fieldMetaIsEnabled : Bool
deriving DecidableEq

/-- The static `lineWidth` style entry (line 131). -/
structure LineWidthStyle where
  type : String
  size : Nat
deriving DecidableEq

/-- The `style` object (lines 108-134). -/
structure StyleDescriptor where
  type : String
  icon : IconStyle
  fillColor : FillColorStyle
  lineColor : LineColorStyle
  lineWidth : LineWidthStyle
  isTimeAware : Bool
deriving DecidableEq

/-- The `VectorLayerDescriptor` fields produced by this component. -/
structure VectorLayerDescriptor where
  id : String
  label : String
  joins : List JoinDescriptor
  sourceDescriptor : EMSFileSourceDescriptor
  style : StyleDescriptor
  visible : Bool
  type : String
deriving DecidableEq

/-- The i18n label with default message `Anomalies count: [jobId]`
(lines 73-76). -/
def anomaliesCountLabel (jobId : String) : String :=
  "Anomalies count: " ++ jobId

/-- `getChoroplethAnomaliesLayer` (lines 66-138).  The id produced by
`htmlIdGenerator()()` is a fresh random string; it is passed in as
`newId` so the embedding stays a pure function. -/
def getChoroplethAnomaliesLayer (newId : String) (anomalies : List AnomalyRecord)
    (config : MLEMSTermJoinConfig) (visible : Bool) : VectorLayerDescriptor :=
  { id := newId,
    label := anomaliesCountLabel config.jobId,
    joins := [
      { leftField := config.field,
        right := {
          id := "anomaly_count",
          type := TABLE_SOURCE,
          rows := getAnomalyRows anomalies config.jobId,
          columns := [⟨"entityValue", "string"⟩, ⟨"count", "number"⟩,
                      ⟨"max_severity", "number"⟩],
          term := "entityValue" } } ],
    sourceDescriptor := { type := "EMS_FILE", id := config.layerId },
    style := {
      type := "VECTOR",
      icon := { type := STYLE_TYPE_STATIC, value := "marker" },
      fillColor := {
        type := STYLE_TYPE_DYNAMIC,
        color := "Blue to Red",
        colorCategory := "palette_0",
        fieldMetaIsEnabled := true,
        fieldMetaSigma := 3,
        colorMapType := COLOR_MAP_TYPE_ORDINAL,
        fieldName := "count",
        fieldOrigin := FIELD_ORIGIN_JOIN,
        useCustomColorRamp := false },
      lineColor := { type := STYLE_TYPE_DYNAMIC, fieldMetaIsEnabled := true },
      lineWidth := { type := STYLE_TYPE_STATIC, size := 1 },
      isTimeAware := true },
    visible := visible,
    type := "VECTOR" }

/-- The style object of every produced layer, for stating that it does
not depend on any input. -/
def choroplethLayerStyle : StyleDescriptor :=
  { type := "VECTOR",
    icon := { type := STYLE_TYPE_STATIC, value := "marker" },
    fillColor := {
      type := STYLE_TYPE_DYNAMIC,
      color := "Blue to Red",
      colorCategory := "palette_0",
      fieldMetaIsEnabled := true,
      fieldMetaSigma := 3,
      colorMapType := COLOR_MAP_TYPE_ORDINAL,
      fieldName := "count",
      fieldOrigin := FIELD_ORIGIN_JOIN,
      useCustomColorRamp := false },
    lineColor := { type := STYLE_TYPE_DYNAMIC, fieldMetaIsEnabled := true },
    lineWidth := { type := STYLE_TYPE_STATIC, size := 1 },
    isTimeAware := true }

/-! ## `layerList` (lines 210-225) -/

/-- The `layerList` memo (lines 210-225): when the stored suggestion list
is present and non-empty, reduce it, pushing one layer per non-null
suggestion; `count` tracks pushed layers and only the first gets
`visible = true`.  Each `htmlIdGenerator()()` call is embedded as
`genId` applied to the number of layers already pushed. -/
def layerList (genId : Nat → String) (anomalies : List AnomalyRecord)
    (suggestions : Option (List (Option MLEMSTermJoinConfig))) :
    List VectorLayerDescriptor :=
  match suggestions with
  | none => []
  | some sugs =>
    if sugs.length = 0 then []
    else
      (sugs.foldl
        (fun (acc : List VectorLayerDescriptor × Nat) s =>
          match s with
          | some cfg =>
            (acc.1 ++ [getChoroplethAnomaliesLayer (genId acc.2) anomalies cfg (acc.2 == 0)],
             acc.2 + 1)
          | none => acc)
        ([], 0)).1

/-! ## Saved-objects registration
(`src/x-pack/plugins/actions/server/saved_objects/index.ts`) -/

/-- `ACTION_SAVED_OBJECT_TYPE` (line 21). -/
def ACTION_SAVED_OBJECT_TYPE : String := "action"

/-- `ALERT_SAVED_OBJECT_TYPE` (line 22). -/
def ALERT_SAVED_OBJECT_TYPE : String := "alert"

/-- `ACTION_TASK_PARAMS_SAVED_OBJECT_TYPE` (line 23). -/
def ACTION_TASK_PARAMS_SAVED_OBJECT_TYPE : String := "action_task_params"

/-- The `management` section of a saved-object type registration.  The
hook fields hold functions, so the embedding records their presence. -/
structure ManagementSection where
  defaultSearchField : String
  importableAndExportable : Bool
  hasGetTitle : Bool
  hasOnExport : Bool
  hasOnImport : Bool
deriving DecidableEq

/-- One argument object of `savedObjects.registerType`.  `mappings`
records which entry of mappings.json is referenced; `hasMigrations`
records whether a `migrations` map was provided. -/
structure SavedObjectTypeRegistration where
  name : String
  hidden : Bool
  namespaceType : String
  mappings : String
  hasMigrations : Bool
  management : Option ManagementSection
deriving DecidableEq

/-- One argument object of `encryptedSavedObjects.registerType`.  The
JavaScript `Set` literals are embedded as lists; an absent
`attributesToExcludeFromAAD` field is `none`. -/
structure EncryptedTypeRegistration where
  type : String
  attributesToEncrypt : List String
  attributesToExcludeFromAAD : Option (List String)
deriving DecidableEq

/-- `setupSavedObjects` (index.ts lines 25-76), embedded as the sequence
of registrations it performs: the first component lists the
`savedObjects.registerType` calls in order, the second the
`encryptedSavedObjects.registerType` calls in order. -/
def setupSavedObjects :
    List SavedObjectTypeRegistration × List EncryptedTypeRegistration :=
  ( [ { name := ACTION_SAVED_OBJECT_TYPE,
        hidden := true,
        namespaceType := "single",
        mappings := "action",
        hasMigrations := true,
        management := some {
          defaultSearchField := "name",
          importableAndExportable := true,
          hasGetTitle := true,
          hasOnExport := true,
          hasOnImport := true } },
      { name := ACTION_TASK_PARAMS_SAVED_OBJECT_TYPE,
        hidden := true,
        namespaceType := "single",
        mappings := "action_task_params",
        hasMigrations := false,
        management := none } ],
    [ { type := ACTION_SAVED_OBJECT_TYPE,
        attributesToEncrypt := ["secrets"],
        attributesToExcludeFromAAD := some ["name"] },
      { type := ACTION_TASK_PARAMS_SAVED_OBJECT_TYPE,
        attributesToEncrypt := ["apiKey"],
        attributesToExcludeFromAAD := none } ] )

/-! ## Specification-side definitions -/

/-- The records of `anomalies` that belong to `jobId` and whose entity
value has JS property key `k`: the group of records aggregated into the
row stored under `k`. -/
def anomalyGroup (anomalies : List AnomalyRecord) (jobId k : String) :
    List AnomalyRecord :=
  anomalies.filter (fun a => a.jobId == jobId && jsKey a.entityValue == k)

/-- `m` is the floor of the maximum severity of the (nonempty) record
list `l`. -/
def isFloorOfMax (l : List AnomalyRecord) (m : Int) : Prop :=
  ∃ a ∈ l, ⌊a.severity⌋ = m ∧ ∀ b ∈ l, b.severity ≤ a.severity

/-- The loop invariant of `getAnomalyRows`: after processing the records
of `pre`, the accumulator has distinct keys, covers every processed
record of the job, and each entry carries its own key, the exact count
of its group, and the floored maximum severity of its group. -/
def RowStateInv (jobId : String) (pre : List AnomalyRecord) (st : RowState) : Prop :=
  (st.map Prod.fst).Nodup ∧
  (∀ b ∈ pre, b.jobId = jobId → jsKey b.entityValue ∈ st.map Prod.fst) ∧
  (∀ p ∈ st,
    jsKey p.2.entityValue = p.1 ∧
    p.2.count = (anomalyGroup pre jobId p.1).length ∧
    isFloorOfMax (anomalyGroup pre jobId p.1) p.2.max_severity)

/-- The record list of the worked example in the specification. -/
def exampleAnomalies : List AnomalyRecord :=
  [⟨"j1", none, some "US", mkRat 427 10⟩, ⟨"j1", none, some "US", mkRat 101 10⟩,
   ⟨"j2", none, some "FR", mkRat 999 10⟩]

/-- The `getAnomalyRows` loop with the input array threaded through as
explicit state: the loop body only reads `anomalies[i]` and never
assigns into the array, so the state component passes through each
iteration unchanged. -/
def getAnomalyRowsWithInput (anomalies : List AnomalyRecord) (jobId : String) :
    List AnomalyRow × List AnomalyRecord :=
  ((anomalies.foldl (fun (acc : RowState × List AnomalyRecord) a =>
      (processAnomaly jobId acc.1 a, acc.2)) ([], anomalies)).1.map Prod.snd,
   (anomalies.foldl (fun (acc : RowState × List AnomalyRecord) a =>
      (processAnomaly jobId acc.1 a, acc.2)) ([], anomalies)).2)

/-- The layers pushed by the `layerList` reduction for the non-null
suggestions `cs`, when `start` layers were already pushed: layer number
`start + i` is built for `cs[i]` and is visible exactly when
`start + i = 0`. -/
def buildLayers (genId : Nat → String) (anomalies : List AnomalyRecord) :
    List MLEMSTermJoinConfig → Nat → List VectorLayerDescriptor
  | [], _ => []
  | c :: rest, start =>
    getChoroplethAnomaliesLayer (genId start) anomalies c (start == 0) ::
      buildLayers genId anomalies rest (start + 1)

/-! ## Helper lemmas for the aggregation invariant -/

/-- Appending one record to a group updates its floored maximum exactly
the way `updateRow` computes it: comparing the raw severity against the
previously floored maximum loses no information. -/
lemma isFloorOfMax_append {g : List AnomalyRecord} {m : Int} (a : AnomalyRecord)
    (h : isFloorOfMax g m) :
    isFloorOfMax (g ++ [a]) (if (m : Rat) < a.severity then ⌊a.severity⌋ else m) := by
  obtain ⟨w, hw, hwf, hmax⟩ := h
  by_cases hle : a.severity ≤ w.severity
  · refine ⟨w, by simp [hw], ?_, ?_⟩
    · by_cases hlt : (m : Rat) < a.severity
      · rw [if_pos hlt]
        have h1 : ⌊a.severity⌋ ≤ m := hwf ▸ Int.floor_le_floor hle
        have h2 : m ≤ ⌊a.severity⌋ := Int.le_floor.mpr hlt.le
        omega
      · rw [if_neg hlt]; exact hwf
    · intro b hb
      rcases List.mem_append.mp hb with hb | hb
      · exact hmax b hb
      · simp only [List.mem_singleton] at hb; subst hb; exact hle
  · push_neg at hle
    have hcond : (m : Rat) < a.severity := by
      calc (m : Rat) ≤ w.severity := by rw [← hwf]; exact Int.floor_le w.severity
        _ < a.severity := hle
    rw [if_pos hcond]
    refine ⟨a, by simp, rfl, ?_⟩
    intro b hb
    rcases List.mem_append.mp hb with hb | hb
    · exact (hmax b hb).trans hle.le
    · simp only [List.mem_singleton] at hb; exact hb ▸ le_rfl

/-- Inserting a record whose key is absent appends a fresh entry. -/
lemma insertAnomaly_of_not_mem {a : AnomalyRecord} :
    ∀ {st : RowState}, jsKey a.entityValue ∉ st.map Prod.fst →
      insertAnomaly a st = st ++ [(jsKey a.entityValue, newRow a)]
  | [], _ => rfl
  | (k, r) :: rest, h => by
    have hk : k ≠ jsKey a.entityValue := by
      intro hkk; exact h (by simp [hkk])
    have hrest : jsKey a.entityValue ∉ rest.map Prod.fst := by
      intro hm; exact h (by simp [hm])
    simp only [insertAnomaly]
    rw [if_neg hk, insertAnomaly_of_not_mem hrest, List.cons_append]

/-- Inserting a record whose key is present keeps the key list
unchanged. -/
lemma insertAnomaly_keys_of_mem {a : AnomalyRecord} :
    ∀ {st : RowState}, jsKey a.entityValue ∈ st.map Prod.fst →
      (insertAnomaly a st).map Prod.fst = st.map Prod.fst
  | [], h => by simp at h
  | (k, r) :: rest, h => by
    by_cases hk : k = jsKey a.entityValue
    · simp [insertAnomaly, if_pos hk]
    · have hrest : jsKey a.entityValue ∈ rest.map Prod.fst := by
        rcases (by simpa using h) with h1 | h1
        · exact absurd h1.symm hk
        · simpa using h1
      simp [insertAnomaly, if_neg hk, insertAnomaly_keys_of_mem hrest]

/-- Where the entries of `insertAnomaly a st` come from, assuming the
keys of `st` are distinct: an untouched old entry with a different key,
the updated entry of the record's key, or a fresh entry for an absent
key. -/
lemma mem_insertAnomaly {a : AnomalyRecord} :
    ∀ {st : RowState}, (st.map Prod.fst).Nodup →
      ∀ p ∈ insertAnomaly a st,
        (p ∈ st ∧ p.1 ≠ jsKey a.entityValue) ∨
        (∃ r, (jsKey a.entityValue, r) ∈ st ∧ p = (jsKey a.entityValue, updateRow r a)) ∨
        (jsKey a.entityValue ∉ st.map Prod.fst ∧ p = (jsKey a.entityValue, newRow a))
  | [], _, p, hp => by
    right; right
    simp only [insertAnomaly, List.mem_singleton] at hp
    exact ⟨by simp, hp⟩
  | (k, r) :: rest, hnd, p, hp => by
    have hnd' : k ∉ rest.map Prod.fst ∧ (rest.map Prod.fst).Nodup :=
      List.nodup_cons.mp (by simpa using hnd)
    have hnd1 : k ∉ rest.map Prod.fst := hnd'.1
    have hnd2 : (rest.map Prod.fst).Nodup := hnd'.2
    by_cases hk : k = jsKey a.entityValue
    · subst hk
      rw [insertAnomaly, if_pos rfl] at hp
      rcases List.mem_cons.mp hp with hp | hp
      · right; left; exact ⟨r, by simp, hp⟩
      · left
        refine ⟨List.mem_cons_of_mem _ hp, ?_⟩
        intro hpk
        exact hnd1 (by simpa [← hpk] using List.mem_map_of_mem Prod.fst hp)
    · rw [insertAnomaly, if_neg hk] at hp
      rcases List.mem_cons.mp hp with hp | hp
      · left; exact ⟨by simp [hp], by simp [hp, hk]⟩
      · rcases mem_insertAnomaly hnd2 p hp with h1 | h1 | h1
        · exact Or.inl ⟨List.mem_cons_of_mem _ h1.1, h1.2⟩
        · obtain ⟨r', hr', hpr⟩ := h1
          exact Or.inr (Or.inl ⟨r', List.mem_cons_of_mem _ hr', hpr⟩)
        · refine Or.inr (Or.inr ⟨?_, h1.2⟩)
          simpa [Ne.symm hk] using h1.1

/-- Appending one record to the input list extends exactly the group of
its own key, and only when the record belongs to the job. -/
lemma anomalyGroup_append (l : List AnomalyRecord) (a : AnomalyRecord) (jobId k : String) :
    anomalyGroup (l ++ [a]) jobId k =
      anomalyGroup l jobId k ++
        (if a.jobId == jobId && jsKey a.entityValue == k then [a] else []) := by
  simp only [anomalyGroup, List.filter_append, List.filter]
  rcases h : a.jobId == jobId && jsKey a.entityValue == k <;> rfl

/-- Processing one record preserves the loop invariant. -/
lemma rowStateInv_step {jobId : String} {pre : List AnomalyRecord} {st : RowState}
    (a : AnomalyRecord) (h : RowStateInv jobId pre st) :
    RowStateInv jobId (pre ++ [a]) (processAnomaly jobId st a) := by
  obtain ⟨h1, h2, h3⟩ := h
  by_cases hj : a.jobId = jobId
  · rw [processAnomaly, if_neg (by simpa using hj)]
    by_cases hmem : jsKey a.entityValue ∈ st.map Prod.fst
    · refine ⟨?_, ?_, ?_⟩
      · rw [insertAnomaly_keys_of_mem hmem]; exact h1
      · intro b hb hbj
        rw [insertAnomaly_keys_of_mem hmem]
        rcases List.mem_append.mp hb with hb | hb
        · exact h2 b hb hbj
        · simp only [List.mem_singleton] at hb; exact hb ▸ hmem
      · intro p hp
        rcases mem_insertAnomaly h1 p hp with hc | hc | hc
        · obtain ⟨hpst, hpk⟩ := hc
          obtain ⟨hkey, hcount, hfmax⟩ := h3 p hpst
          have hgrp : anomalyGroup (pre ++ [a]) jobId p.1 = anomalyGroup pre jobId p.1 := by
            rw [anomalyGroup_append]
            have : (a.jobId == jobId && jsKey a.entityValue == p.1) = false := by
              simp [Ne.symm hpk]
            rw [this]; simp
          exact ⟨hkey, hgrp ▸ hcount, hgrp ▸ hfmax⟩
        · obtain ⟨r, hrst, hpr⟩ := hc
          obtain ⟨hkey, hcount, hfmax⟩ := h3 _ hrst
          have hgrp : anomalyGroup (pre ++ [a]) jobId (jsKey a.entityValue) =
              anomalyGroup pre jobId (jsKey a.entityValue) ++ [a] := by
            rw [anomalyGroup_append]
            have : (a.jobId == jobId && jsKey a.entityValue == jsKey a.entityValue) = true := by
              simp [hj]
            rw [this]; simp
          subst hpr
          refine ⟨by simpa using hkey, ?_, ?_⟩
          · simp only [hgrp, List.length_append, List.length_singleton]
            simpa [updateRow] using hcount
          · simpa [hgrp, updateRow] using
              isFloorOfMax_append a (by simpa using hfmax)
        · obtain ⟨hnomem, hpr⟩ := hc
          have hgrp0 : anomalyGroup pre jobId (jsKey a.entityValue) = [] := by
            rw [List.eq_nil_iff_forall_not_mem]
            intro b hb
            have hb' := List.mem_filter.mp hb
            have hbj : b.jobId = jobId := by
              have := hb'.2; simp only [Bool.and_eq_true, beq_iff_eq] at this; exact this.1
            have hbk : jsKey b.entityValue = jsKey a.entityValue := by
              have := hb'.2; simp only [Bool.and_eq_true, beq_iff_eq] at this; exact this.2
            exact hnomem (hbk ▸ h2 b hb'.1 hbj)
          have hgrp : anomalyGroup (pre ++ [a]) jobId (jsKey a.entityValue) = [a] := by
            rw [anomalyGroup_append, hgrp0]
            have : (a.jobId == jobId && jsKey a.entityValue == jsKey a.entityValue) = true := by
              simp [hj]
            rw [this]; simp
          subst hpr
          refine ⟨by simp [newRow], ?_, ?_⟩
          · simp [hgrp, newRow]
          · rw [hgrp]
            exact ⟨a, by simp, rfl, by simp⟩
    · rw [insertAnomaly_of_not_mem hmem]
      refine ⟨?_, ?_, ?_⟩
      · rw [List.map_append]
        refine List.Nodup.append h1 (by simp) ?_
        simpa [List.disjoint_right] using hmem
      · intro b hb hbj
        rw [List.map_append]
        rcases List.mem_append.mp hb with hb | hb
        · exact List.mem_append_left _ (h2 b hb hbj)
        · simp only [List.mem_singleton] at hb
          exact hb ▸ List.mem_append_right _ (by simp)
      · intro p hp
        rcases List.mem_append.mp hp with hp | hp
        · obtain ⟨hkey, hcount, hfmax⟩ := h3 p hp
          have hpk : p.1 ≠ jsKey a.entityValue := by
            intro hpk
            exact hmem (hpk ▸ List.mem_map_of_mem Prod.fst hp)
          have hgrp : anomalyGroup (pre ++ [a]) jobId p.1 = anomalyGroup pre jobId p.1 := by
            rw [anomalyGroup_append]
            have : (a.jobId == jobId && jsKey a.entityValue == p.1) = false := by
              simp [Ne.symm hpk]
            rw [this]; simp
          exact ⟨hkey, hgrp ▸ hcount, hgrp ▸ hfmax⟩
        · simp only [List.mem_singleton] at hp
          have hgrp0 : anomalyGroup pre jobId (jsKey a.entityValue) = [] := by
            rw [List.eq_nil_iff_forall_not_mem]
            intro b hb
            have hb' := List.mem_filter.mp hb
            have hbj : b.jobId = jobId := by
              have := hb'.2; simp only [Bool.and_eq_true, beq_iff_eq] at this; exact this.1
            have hbk : jsKey b.entityValue = jsKey a.entityValue := by
              have := hb'.2; simp only [Bool.and_eq_true, beq_iff_eq] at this; exact this.2
            exact hmem (hbk ▸ h2 b hb'.1 hbj)
          have hgrp : anomalyGroup (pre ++ [a]) jobId (jsKey a.entityValue) = [a] := by
            rw [anomalyGroup_append, hgrp0]
            have : (a.jobId == jobId && jsKey a.entityValue == jsKey a.entityValue) = true := by
              simp [hj]
            rw [this]; simp
          subst hp
          refine ⟨by simp [newRow], ?_, ?_⟩
          · simp [hgrp, newRow]
          · rw [hgrp]
            exact ⟨a, by simp, rfl, by simp⟩
  · rw [processAnomaly, if_pos (by simpa using hj)]
    refine ⟨h1, ?_, ?_⟩
    · intro b hb hbj
      rcases List.mem_append.mp hb with hb | hb
      · exact h2 b hb hbj
      · simp only [List.mem_singleton] at hb; exact absurd (hb ▸ hbj) hj
    · intro p hp
      obtain ⟨hkey, hcount, hfmax⟩ := h3 p hp
      have hgrp : anomalyGroup (pre ++ [a]) jobId p.1 = anomalyGroup pre jobId p.1 := by
        rw [anomalyGroup_append]
        have : (a.jobId == jobId && jsKey a.entityValue == p.1) = false := by
          simp [hj]
        rw [this]; simp
      exact ⟨hkey, hgrp ▸ hcount, hgrp ▸ hfmax⟩

/-- Folding the loop body over any suffix preserves the invariant. -/
lemma rowStateInv_foldl (jobId : String) :
    ∀ (rest pre : List AnomalyRecord) (st : RowState),
      RowStateInv jobId pre st →
      RowStateInv jobId (pre ++ rest) (rest.foldl (processAnomaly jobId) st)
  | [], pre, st, h => by simpa using h
  | a :: rest, pre, st, h => by
    have hstep := rowStateInv_step a h
    have := rowStateInv_foldl jobId rest (pre ++ [a]) (processAnomaly jobId st a) hstep
    simpa [List.append_assoc] using this

/-- The accumulator of the whole `getAnomalyRows` loop satisfies the
invariant for the full input list. -/
lemma rowStateInv_full (anomalies : List AnomalyRecord) (jobId : String) :
    RowStateInv jobId anomalies (anomalyRowsState anomalies jobId) := by
  have := rowStateInv_foldl jobId anomalies [] [] (by
    refine ⟨by simp, by simp, by simp⟩)
  simpa [anomalyRowsState] using this

/-- The JS keys of the produced rows are pairwise distinct. -/
lemma getAnomalyRows_keys_nodup (anomalies : List AnomalyRecord) (jobId : String) :
    ((getAnomalyRows anomalies jobId).map (fun r => jsKey r.entityValue)).Nodup := by
  obtain ⟨h1, _, h3⟩ := rowStateInv_full anomalies jobId
  have hmap : (getAnomalyRows anomalies jobId).map (fun r => jsKey r.entityValue) =
      (anomalyRowsState anomalies jobId).map Prod.fst := by
    rw [getAnomalyRows, List.map_map]
    exact List.map_congr_left (fun p hp => (h3 p hp).1)
  rw [hmap]; exact h1

/-- Every record of the selected job contributes to a row: a row with
its JS key is produced (no filtering of any kind happens here). -/
lemma getAnomalyRows_covers (anomalies : List AnomalyRecord) (jobId : String) :
    ∀ a ∈ anomalies, a.jobId = jobId →
      ∃ r ∈ getAnomalyRows anomalies jobId, jsKey r.entityValue = jsKey a.entityValue := by
  obtain ⟨_, h2, h3⟩ := rowStateInv_full anomalies jobId
  intro a ha haj
  obtain ⟨p, hp, hpk⟩ := List.mem_map.mp (h2 a ha haj)
  exact ⟨p.2, List.mem_map_of_mem Prod.snd hp, by rw [(h3 p hp).1, hpk]⟩

/-- Every produced row describes its nonempty group exactly: its count
is the group size and its `max_severity` the floored maximum severity. -/
lemma getAnomalyRows_row_spec (anomalies : List AnomalyRecord) (jobId : String) :
    ∀ r ∈ getAnomalyRows anomalies jobId,
      anomalyGroup anomalies jobId (jsKey r.entityValue) ≠ [] ∧
      r.count = (anomalyGroup anomalies jobId (jsKey r.entityValue)).length ∧
      isFloorOfMax (anomalyGroup anomalies jobId (jsKey r.entityValue)) r.max_severity := by
  obtain ⟨_, _, h3⟩ := rowStateInv_full anomalies jobId
  intro r hr
  obtain ⟨p, hp, hpr⟩ := List.mem_map.mp hr
  obtain ⟨hkey, hcount, hfmax⟩ := h3 p hp
  subst hpr
  rw [hkey]
  refine ⟨?_, hcount, hfmax⟩
  obtain ⟨w, hw, _, _⟩ := hfmax
  exact List.ne_nil_of_mem hw

/-! ## Claim theorems -/

/-- C1, counterexample: the rows do NOT partition the records of the job
by `entityValue` on every input.  A record whose `entityValue` is
`undefined` and a record whose `entityValue` is the string "undefined"
land under the same JavaScript property key, so the single produced row
has count 2 while only one record carries its `entityValue`. -/
theorem claim_C1_counterexample :
    ∃ r ∈ getAnomalyRows
      [⟨"j1", none, none, mkRat 1 1⟩, ⟨"j1", none, some "undefined", mkRat 2 1⟩] "j1",
      r.count ≠
        (([⟨"j1", none, none, mkRat 1 1⟩,
           ⟨"j1", none, some "undefined", mkRat 2 1⟩] : List AnomalyRecord).filter
          (fun a => a.jobId == "j1" && a.entityValue == r.entityValue)).length := by
  decide

/-- C1, amended: for every list of anomaly records and every job
identifier, the rows partition the records of the job exactly by the
JavaScript property key of `entityValue` (an `undefined` value is
rendered as the key "undefined"): row keys are pairwise distinct, every
record of the job contributes to exactly one row, each row's count is
the size of its key group and its `max_severity` the floor of the
maximum severity of that group; on the specification's example input
with job "j1" the result is exactly one row
`(entityValue "US", count 2, max_severity 42)`. -/
theorem claim_C1_partition :
    (∀ (anomalies : List AnomalyRecord) (jobId : String),
      ((getAnomalyRows anomalies jobId).map (fun r => jsKey r.entityValue)).Nodup ∧
      (∀ a ∈ anomalies, a.jobId = jobId →
        ∃ r ∈ getAnomalyRows anomalies jobId,
          jsKey r.entityValue = jsKey a.entityValue) ∧
      (∀ r ∈ getAnomalyRows anomalies jobId,
        anomalyGroup anomalies jobId (jsKey r.entityValue) ≠ [] ∧
        r.count = (anomalyGroup anomalies jobId (jsKey r.entityValue)).length ∧
        isFloorOfMax (anomalyGroup anomalies jobId (jsKey r.entityValue)) r.max_severity)) ∧
    getAnomalyRows exampleAnomalies "j1" = [⟨2, some "US", 42⟩] :=
  ⟨fun anomalies jobId =>
    ⟨getAnomalyRows_keys_nodup anomalies jobId,
     getAnomalyRows_covers anomalies jobId,
     getAnomalyRows_row_spec anomalies jobId⟩,
   by decide⟩

/-- C1, witness: the general part of the amended claim, instantiated on
the example list: the first example record contributes to a row keyed
"US". -/
theorem claim_C1_witness :
    ∃ r ∈ getAnomalyRows exampleAnomalies "j1",
      jsKey r.entityValue = jsKey (some "US") :=
  (claim_C1_partition.1 exampleAnomalies "j1").2.1
    ⟨"j1", none, some "US", mkRat 427 10⟩ (by decide) rfl

/-- C3, counterexample: `getAnomalyRows` performs no empty-string
filtering: a record of the job whose `entityValue` is the empty string
does contribute a row, and that row's `entityValue` is empty. -/
theorem claim_C3_counterexample :
    ∃ r ∈ getAnomalyRows [⟨"j1", none, some "", mkRat 5 1⟩] "j1",
      r.entityValue = some "" := by
  decide

/-- C3, amended: the row-building aggregation performs NO null/empty-
string filtering: every record of the selected job contributes to a row,
including records with an empty or undefined `entityValue`, so produced
rows can carry an empty or an undefined `entityValue` (the empty/
undefined checks live only in the suggestion-sampling loop). -/
theorem claim_C3_no_filtering :
    (∀ (anomalies : List AnomalyRecord) (jobId : String), ∀ a ∈ anomalies,
      a.jobId = jobId →
        ∃ r ∈ getAnomalyRows anomalies jobId,
          jsKey r.entityValue = jsKey a.entityValue) ∧
    getAnomalyRows [⟨"j1", none, some "", mkRat 5 1⟩] "j1" = [⟨1, some "", 5⟩] ∧
    getAnomalyRows [⟨"j1", none, none, mkRat 5 1⟩] "j1" = [⟨1, none, 5⟩] :=
  ⟨getAnomalyRows_covers, by decide, by decide⟩

/-- C3, witness: the general part of the amended claim instantiated on a
concrete record with empty `entityValue`. -/
theorem claim_C3_witness :
    ∃ r ∈ getAnomalyRows [⟨"j1", none, some "", mkRat 5 1⟩] "j1",
      jsKey r.entityValue = jsKey (some "") :=
  claim_C3_no_filtering.1 [⟨"j1", none, some "", mkRat 5 1⟩] "j1"
    ⟨"j1", none, some "", mkRat 5 1⟩ (by decide) rfl

/-! ## Helper lemmas for the sampling loop -/

/-- Adding to the set grows it by at most one element. -/
lemma setAdd_length_le (vals : List String) (v : String) :
    (setAdd vals v).length ≤ vals.length + 1 := by
  rw [setAdd]
  split
  · exact Nat.le_succ _
  · simp

/-- Membership in the set after an add. -/
lemma mem_setAdd {vals : List String} {v w : String} (h : w ∈ setAdd vals v) :
    w ∈ vals ∨ w = v := by
  rw [setAdd] at h
  split at h
  · exact Or.inl h
  · simpa using h

/-- Adding to the set preserves distinctness. -/
lemma setAdd_nodup {vals : List String} (h : vals.Nodup) (v : String) :
    (setAdd vals v).Nodup := by
  rw [setAdd]
  split
  · exact h
  · simpa [List.nodup_append] using ⟨h, by assumption⟩

/-- A record passing the sampling guard belongs to the job and has a
defined non-empty entity value and name. -/
lemma sampleGuard_spec {jobId : String} {a : AnomalyRecord}
    (h : sampleGuard jobId a = true) :
    a.jobId = jobId ∧ (∃ s, a.entityValue = some s ∧ s ≠ "") ∧
      definedNonEmpty a.entityName = true := by
  rw [sampleGuard] at h
  simp only [Bool.and_eq_true, beq_iff_eq] at h
  refine ⟨h.1.1, ?_, h.2⟩
  rcases hev : a.entityValue with _ | s
  · rw [hev] at h; simp [definedNonEmpty] at h
  · refine ⟨s, rfl, ?_⟩
    rw [hev] at h
    have := h.1.2
    simp [definedNonEmpty] at this
    simpa using this

/-- The sampling-loop step for a record passing the guard. -/
lemma sampleLoop_cons_pos {jobId : String} {a : AnomalyRecord}
    (rest : List AnomalyRecord) (vals : List String) (name : Option String)
    (hg : sampleGuard jobId a = true) :
    sampleLoop jobId (a :: rest) vals name =
      if (setAdd vals (a.entityValue.getD "")).length = MAX_ENTITY_VALUES then
        (setAdd vals (a.entityValue.getD ""),
         if jsFalsy name = true then a.entityName else name)
      else
        sampleLoop jobId rest (setAdd vals (a.entityValue.getD ""))
          (if jsFalsy name = true then a.entityName else name) := by
  simp [sampleLoop, hg]

/-- The sampling-loop step for a record failing the guard. -/
lemma sampleLoop_cons_neg {jobId : String} {a : AnomalyRecord}
    (rest : List AnomalyRecord) (vals : List String) (name : Option String)
    (hg : sampleGuard jobId a = false) :
    sampleLoop jobId (a :: rest) vals name =
      if vals.length = MAX_ENTITY_VALUES then (vals, name)
      else sampleLoop jobId rest vals name := by
  simp [sampleLoop, hg]

/-- The sampling loop never returns more than `MAX_ENTITY_VALUES`
values, provided it starts below the bound. -/
lemma sampleLoop_length_le (jobId : String) :
    ∀ (l : List AnomalyRecord) (vals : List String) (name : Option String),
      vals.length < MAX_ENTITY_VALUES →
      (sampleLoop jobId l vals name).1.length ≤ MAX_ENTITY_VALUES
  | [], _, _, h => h.le
  | a :: rest, vals, name, h => by
    by_cases hg : sampleGuard jobId a = true
    · rw [sampleLoop_cons_pos rest vals name hg]
      have hsa := setAdd_length_le vals (a.entityValue.getD "")
      by_cases hb : (setAdd vals (a.entityValue.getD "")).length = MAX_ENTITY_VALUES
      · rw [if_pos hb]; exact hb.le
      · rw [if_neg hb]
        exact sampleLoop_length_le jobId rest _ _ (by omega)
    · rw [sampleLoop_cons_neg rest vals name (by simpa using hg)]
      rw [if_neg (Nat.ne_of_lt h)]
      exact sampleLoop_length_le jobId rest _ _ h

/-- Every value the sampling loop returns was already in the set or
comes from a record passing the guard. -/
lemma sampleLoop_mem (jobId : String) :
    ∀ (l : List AnomalyRecord) (vals : List String) (name : Option String),
      ∀ v ∈ (sampleLoop jobId l vals name).1,
        v ∈ vals ∨ ∃ a ∈ l, sampleGuard jobId a = true ∧ a.entityValue = some v
  | [], vals, _, v, hv => Or.inl hv
  | a :: rest, vals, name, v, hv => by
    by_cases hg : sampleGuard jobId a = true
    · rw [sampleLoop_cons_pos rest vals name hg] at hv
      have step : v ∈ setAdd vals (a.entityValue.getD "") →
          v ∈ vals ∨ ∃ b ∈ a :: rest, sampleGuard jobId b = true ∧ b.entityValue = some v := by
        intro hw
        rcases mem_setAdd hw with hw | hw
        · exact Or.inl hw
        · obtain ⟨_, ⟨s, hs, _⟩, _⟩ := sampleGuard_spec hg
          refine Or.inr ⟨a, by simp, hg, ?_⟩
          rw [hw, hs]; simp
      split at hv
      · exact step hv
      · rcases sampleLoop_mem jobId rest _ _ v hv with hv' | hv'
        · exact step hv'
        · obtain ⟨b, hb, hbg, hbv⟩ := hv'
          exact Or.inr ⟨b, List.mem_cons_of_mem _ hb, hbg, hbv⟩
    · rw [sampleLoop_cons_neg rest vals name (by simpa using hg)] at hv
      split at hv
      · exact Or.inl hv
      · rcases sampleLoop_mem jobId rest _ _ v hv with hv' | hv'
        · exact Or.inl hv'
        · obtain ⟨b, hb, hbg, hbv⟩ := hv'
          exact Or.inr ⟨b, List.mem_cons_of_mem _ hb, hbg, hbv⟩

/-- The sampling loop preserves distinctness of the collected values. -/
lemma sampleLoop_nodup (jobId : String) :
    ∀ (l : List AnomalyRecord) (vals : List String) (name : Option String),
      vals.Nodup → (sampleLoop jobId l vals name).1.Nodup
  | [], _, _, h => h
  | a :: rest, vals, name, h => by
    by_cases hg : sampleGuard jobId a = true
    · rw [sampleLoop_cons_pos rest vals name hg]
      split
      · exact setAdd_nodup h _
      · exact sampleLoop_nodup jobId rest _ _ (setAdd_nodup h _)
    · rw [sampleLoop_cons_neg rest vals name (by simpa using hg)]
      split
      · exact h
      · exact sampleLoop_nodup jobId rest _ _ h

/-- Once the remembered entity name is truthy it never changes. -/
lemma sampleLoop_name_frozen (jobId : String) :
    ∀ (l : List AnomalyRecord) (vals : List String) (name : Option String),
      jsFalsy name = false → (sampleLoop jobId l vals name).2 = name
  | [], _, _, _ => rfl
  | a :: rest, vals, name, h => by
    have hcond : ¬ (jsFalsy name = true) := by simp [h]
    by_cases hg : sampleGuard jobId a = true
    · rw [sampleLoop_cons_pos rest vals name hg, if_neg hcond]
      split
      · rfl
      · exact sampleLoop_name_frozen jobId rest _ _ h
    · rw [sampleLoop_cons_neg rest vals name (by simpa using hg)]
      split
      · rfl
      · exact sampleLoop_name_frozen jobId rest _ _ h

/-- A record passing the guard has a truthy entity name. -/
lemma sampleGuard_name_truthy {jobId : String} {a : AnomalyRecord}
    (hg : sampleGuard jobId a = true) : jsFalsy a.entityName = false := by
  obtain ⟨_, _, hn⟩ := sampleGuard_spec hg
  rcases hne : a.entityName with _ | s
  · rw [hne] at hn; simp [definedNonEmpty] at hn
  · rw [hne] at hn
    simp only [definedNonEmpty] at hn
    simp only [jsFalsy]
    simpa using hn

/-- Starting from a falsy name below the size bound, the remembered name
is the entity name of the first record passing the guard (or the start
value when none does). -/
lemma sampleLoop_name_spec (jobId : String) :
    ∀ (l : List AnomalyRecord) (vals : List String) (name : Option String),
      jsFalsy name = true → vals.length < MAX_ENTITY_VALUES →
      (sampleLoop jobId l vals name).2 =
        (match l.find? (fun b => sampleGuard jobId b) with
         | some a => a.entityName
         | none => name)
  | [], _, _, _, _ => rfl
  | a :: rest, vals, name, hf, hlen => by
    by_cases hg : sampleGuard jobId a = true
    · rw [sampleLoop_cons_pos rest vals name hg, List.find?_cons_of_pos _ hg, if_pos hf]
      split
      · rfl
      · exact sampleLoop_name_frozen jobId rest _ _ (sampleGuard_name_truthy hg)
    · rw [sampleLoop_cons_neg rest vals name (by simpa using hg),
        List.find?_cons_of_neg _ hg, if_neg (Nat.ne_of_lt hlen)]
      exact sampleLoop_name_spec jobId rest vals name hf hlen

/-- When no record passes the guard, the loop adds nothing. -/
lemma sampleLoop_vals_of_none (jobId : String) :
    ∀ (l : List AnomalyRecord) (vals : List String) (name : Option String),
      l.find? (fun b => sampleGuard jobId b) = none →
      vals.length < MAX_ENTITY_VALUES →
      (sampleLoop jobId l vals name).1 = vals
  | [], _, _, _, _ => rfl
  | a :: rest, vals, name, hfind, hlen => by
    have hg : ¬ sampleGuard jobId a = true := by
      intro hg
      rw [List.find?_cons_of_pos _ hg] at hfind
      exact Option.noConfusion hfind
    rw [List.find?_cons_of_neg _ hg] at hfind
    rw [sampleLoop_cons_neg rest vals name (by simpa using hg),
      if_neg (Nat.ne_of_lt hlen)]
    exact sampleLoop_vals_of_none jobId rest vals name hfind hlen

/-- C2: the sampling loop of `getEMSTermSuggestions` gathers at most
`MAX_ENTITY_VALUES = 3` distinct entity values, and every collected
value is non-empty and comes from a record of the job whose entity value
and entity name are both defined and non-empty. -/
theorem claim_C2_sampling :
    ∀ (anomalies : List AnomalyRecord) (jobId : String),
      (sampleEntityValues anomalies jobId).1.length ≤ MAX_ENTITY_VALUES ∧
      (sampleEntityValues anomalies jobId).1.Nodup ∧
      ∀ v ∈ (sampleEntityValues anomalies jobId).1,
        v ≠ "" ∧ ∃ a ∈ anomalies, a.jobId = jobId ∧ a.entityValue = some v ∧
          definedNonEmpty a.entityName = true := by
  intro anomalies jobId
  refine ⟨sampleLoop_length_le jobId anomalies [] none (by decide),
    sampleLoop_nodup jobId anomalies [] none (by simp), ?_⟩
  intro v hv
  rcases sampleLoop_mem jobId anomalies [] none v hv with hv' | hv'
  · simp at hv'
  · obtain ⟨a, ha, hg, hav⟩ := hv'
    obtain ⟨hjob, ⟨s, hs, hsne⟩, hn⟩ := sampleGuard_spec hg
    have hvs : v = s := by rw [hav] at hs; injection hs
    exact ⟨hvs ▸ hsne, a, ha, hjob, hav, hn⟩

/-- C2, witness: on a concrete list the collected values are non-empty
and traced back to qualifying records. -/
theorem claim_C2_witness :
    "US" ≠ "" ∧ ∃ a ∈ [(⟨"j1", some "country", some "US", mkRat 7 1⟩ : AnomalyRecord)],
      a.jobId = "j1" ∧ a.entityValue = some "US" ∧
        definedNonEmpty a.entityName = true :=
  (claim_C2_sampling [⟨"j1", some "country", some "US", mkRat 7 1⟩] "j1").2.2
    "US" (by decide)

/-- C10: the column name sent to the suggestion service is the entity
name of the first record of the job with defined non-empty entity value
and name; when no record qualifies, the empty string is sent and the
sample-value list is empty. -/
theorem claim_C10_column_name :
    ∀ (anomalies : List AnomalyRecord) (jobId : String),
      (∀ a, anomalies.find? (fun b => sampleGuard jobId b) = some a →
        some (sampleValuesColumnName anomalies jobId) = a.entityName) ∧
      (anomalies.find? (fun b => sampleGuard jobId b) = none →
        sampleValuesColumnName anomalies jobId = "" ∧
        (sampleEntityValues anomalies jobId).1 = []) := by
  intro anomalies jobId
  have hname := sampleLoop_name_spec jobId anomalies [] none rfl (by decide)
  constructor
  · intro a hfind
    rw [hfind] at hname
    have hname' : (sampleLoop jobId anomalies [] none).2 = a.entityName := hname
    have hg : sampleGuard jobId a = true := List.find?_some hfind
    obtain ⟨_, _, hn⟩ := sampleGuard_spec hg
    rcases hne : a.entityName with _ | s
    · rw [hne] at hn; simp [definedNonEmpty] at hn
    · rw [hne] at hn
      simp only [definedNonEmpty] at hn
      rw [sampleValuesColumnName, sampleEntityValues]
      rw [hname', hne]
      rw [jsOrEmptyString]
      have : jsFalsy (some s) = false := by simpa [jsFalsy] using hn
      rw [this]
      simp
  · intro hfind
    rw [hfind] at hname
    have hname' : (sampleLoop jobId anomalies [] none).2 = none := hname
    refine ⟨?_, sampleLoop_vals_of_none jobId anomalies [] none hfind (by decide)⟩
    rw [sampleValuesColumnName, sampleEntityValues, hname']
    rfl

/-- C10, witness: on a concrete list whose first qualifying record names
the column "country", that name is sent. -/
theorem claim_C10_witness :
    some (sampleValuesColumnName
      [⟨"j2", none, some "DE", mkRat 1 1⟩,
       ⟨"j1", some "country", some "US", mkRat 7 1⟩] "j1") =
      (⟨"j1", some "country", some "US", mkRat 7 1⟩ : AnomalyRecord).entityName :=
  (claim_C10_column_name
    [⟨"j2", none, some "DE", mkRat 1 1⟩, ⟨"j1", some "country", some "US", mkRat 7 1⟩]
    "j1").1 ⟨"j1", some "country", some "US", mkRat 7 1⟩ (by decide)

/-! ## C5: only non-null suggestions are stored -/

/-- C5: the stored suggestion list contains only non-null entries; a
non-null answer of the service for some requested job identifier is kept
and tagged with that job identifier, and every stored entry arose that
way. -/
theorem claim_C5_non_null :
    ∀ (suggest : EMSSuggestRequest → Option EMSTermJoinConfig)
      (anomalies : List AnomalyRecord) (jobIds : List String),
      (∀ x ∈ getEMSTermSuggestions suggest anomalies jobIds, x.isSome = true) ∧
      (∀ jobId ∈ jobIds, ∀ c, suggest (suggestionRequest anomalies jobId) = some c →
        some ⟨c.layerId, c.field, jobId⟩ ∈ getEMSTermSuggestions suggest anomalies jobIds) ∧
      (∀ x ∈ getEMSTermSuggestions suggest anomalies jobIds,
        ∃ jobId ∈ jobIds, ∃ c, suggest (suggestionRequest anomalies jobId) = some c ∧
          x = some ⟨c.layerId, c.field, jobId⟩) := by
  intro suggest anomalies jobIds
  refine ⟨?_, ?_, ?_⟩
  · intro x hx
    exact (List.mem_filter.mp hx).2
  · intro jobId hj c hc
    refine List.mem_filter.mpr ⟨?_, ?_⟩
    · have : suggestionFor suggest anomalies jobId = some ⟨c.layerId, c.field, jobId⟩ := by
        rw [suggestionFor, hc]
      exact this ▸ List.mem_map_of_mem (suggestionFor suggest anomalies) hj
    · rfl
  · intro x hx
    obtain ⟨hmem, hsome⟩ := List.mem_filter.mp hx
    obtain ⟨jobId, hj, hfor⟩ := List.mem_map.mp hmem
    rcases hc : suggest (suggestionRequest anomalies jobId) with _ | c
    · rw [suggestionFor, hc] at hfor
      rw [← hfor] at hsome
      simp at hsome
    · rw [suggestionFor, hc] at hfor
      exact ⟨jobId, hj, c, hc, hfor.symm⟩

/-- C5, witness: a service answering a fixed non-null suggestion for job
"j1" results in that suggestion, tagged "j1", being stored. -/
theorem claim_C5_witness :
    some (⟨"world_countries", "iso2", "j1"⟩ : MLEMSTermJoinConfig) ∈
      getEMSTermSuggestions (fun _ => some ⟨"world_countries", "iso2"⟩) [] ["j1"] :=
  (claim_C5_non_null (fun _ => some ⟨"world_countries", "iso2"⟩) [] ["j1"]).2.1
    "j1" (by decide) ⟨"world_countries", "iso2"⟩ rfl

/-! ## C4: the produced layer description -/

/-- C4: for every input the layer builder returns a layer with exactly
one data join descriptor whose `leftField` is the configured field,
whose right-side term is "entityValue", whose columns are `entityValue`
(string), `count` (number) and `max_severity` (number) and whose rows
are the aggregated rows of the configured job; the source descriptor
references the configured target layer; the styling descriptor is one
fixed object, independent of all inputs. -/
theorem claim_C4_layer :
    ∀ (newId : String) (anomalies : List AnomalyRecord)
      (layerId field jobId : String) (visible : Bool),
      (getChoroplethAnomaliesLayer newId anomalies ⟨layerId, field, jobId⟩ visible).joins =
        [{ leftField := field,
           right := {
             id := "anomaly_count",
             type := TABLE_SOURCE,
             rows := getAnomalyRows anomalies jobId,
             columns := [⟨"entityValue", "string"⟩, ⟨"count", "number"⟩,
                         ⟨"max_severity", "number"⟩],
             term := "entityValue" } }] ∧
      (getChoroplethAnomaliesLayer newId anomalies
          ⟨layerId, field, jobId⟩ visible).sourceDescriptor =
        ⟨"EMS_FILE", layerId⟩ ∧
      (getChoroplethAnomaliesLayer newId anomalies ⟨layerId, field, jobId⟩ visible).style =
        choroplethLayerStyle :=
  fun _ _ _ _ _ _ => ⟨rfl, rfl, rfl⟩

/-! ## C7: the aggregator is pure -/

/-- The threaded fold leaves the array component untouched. -/
lemma foldl_readonly (jobId : String) :
    ∀ (l : List AnomalyRecord) (st : RowState) (arr : List AnomalyRecord),
      l.foldl (fun (acc : RowState × List AnomalyRecord) a =>
        (processAnomaly jobId acc.1 a, acc.2)) (st, arr)
        = (l.foldl (processAnomaly jobId) st, arr)
  | [], _, _ => rfl
  | a :: rest, st, arr => foldl_readonly jobId rest (processAnomaly jobId st a) arr

/-- C7: the aggregator is pure and stateless: runs on equal inputs give
equal row lists, and the run never modifies the input list (the threaded
array state comes back unchanged while producing the same rows). -/
theorem claim_C7_pure :
    (∀ (a₁ a₂ : List AnomalyRecord) (j₁ j₂ : String), a₁ = a₂ → j₁ = j₂ →
      getAnomalyRows a₁ j₁ = getAnomalyRows a₂ j₂) ∧
    (∀ (anomalies : List AnomalyRecord) (jobId : String),
      (getAnomalyRowsWithInput anomalies jobId).2 = anomalies ∧
      (getAnomalyRowsWithInput anomalies jobId).1 = getAnomalyRows anomalies jobId) := by
  refine ⟨fun a₁ a₂ j₁ j₂ h hj => by rw [h, hj], fun anomalies jobId => ?_⟩
  rw [getAnomalyRowsWithInput, foldl_readonly]
  exact ⟨rfl, rfl⟩

/-- C7, witness: determinism instantiated on the example list. -/
theorem claim_C7_witness :
    getAnomalyRows exampleAnomalies "j1" = getAnomalyRows exampleAnomalies "j1" :=
  claim_C7_pure.1 exampleAnomalies exampleAnomalies "j1" "j1" rfl rfl

/-! ## C8: at most one layer is visible -/

/-- The `layerList` reduction is `buildLayers` over the non-null
suggestions. -/
lemma layerFold_eq (genId : Nat → String) (anomalies : List AnomalyRecord) :
    ∀ (sugs : List (Option MLEMSTermJoinConfig))
      (acc : List VectorLayerDescriptor × Nat),
      sugs.foldl
        (fun (acc : List VectorLayerDescriptor × Nat) s =>
          match s with
          | some cfg =>
            (acc.1 ++ [getChoroplethAnomaliesLayer (genId acc.2) anomalies cfg (acc.2 == 0)],
             acc.2 + 1)
          | none => acc)
        acc
        = (acc.1 ++ buildLayers genId anomalies (sugs.filterMap id) acc.2,
           acc.2 + (sugs.filterMap id).length)
  | [], acc => by simp [buildLayers]
  | some c :: rest, acc => by
    rw [List.foldl_cons, layerFold_eq genId anomalies rest]
    simp [buildLayers]
    omega
  | none :: rest, acc => by
    rw [List.foldl_cons, layerFold_eq genId anomalies rest]
    simp

/-- `layerList` on a present suggestion list. -/
lemma layerList_some (genId : Nat → String) (anomalies : List AnomalyRecord)
    (sugs : List (Option MLEMSTermJoinConfig)) :
    layerList genId anomalies (some sugs) =
      buildLayers genId anomalies (sugs.filterMap id) 0 := by
  rw [layerList]
  by_cases h : sugs.length = 0
  · rw [if_pos h]
    have : sugs = [] := List.length_eq_zero.mp h
    subst this
    rfl
  · rw [if_neg h, layerFold_eq]
    simp

/-- Every layer pushed after the first one is invisible. -/
lemma buildLayers_visible_false (genId : Nat → String) (anomalies : List AnomalyRecord) :
    ∀ (cs : List MLEMSTermJoinConfig) (start : Nat), start ≠ 0 →
      ∀ L ∈ buildLayers genId anomalies cs start, L.visible = false
  | [], _, _, L, hL => absurd hL (List.not_mem_nil L)
  | c :: rest, start, hs, L, hL => by
    rcases List.mem_cons.mp hL with h | h
    · subst h
      exact beq_eq_false_iff_ne.mpr hs
    · exact buildLayers_visible_false genId anomalies rest (start + 1)
        (Nat.succ_ne_zero start) L h

/-- C8: in the layer list built from the collected suggestions, the
first layer is visible, every later layer is not, and at most one layer
of the list is marked visible. -/
theorem claim_C8_visibility :
    ∀ (genId : Nat → String) (anomalies : List AnomalyRecord)
      (suggestions : Option (List (Option MLEMSTermJoinConfig))),
      (∀ L ∈ (layerList genId anomalies suggestions).take 1, L.visible = true) ∧
      (∀ L ∈ (layerList genId anomalies suggestions).drop 1, L.visible = false) ∧
      ((layerList genId anomalies suggestions).filter (fun L => L.visible)).length ≤ 1 := by
  intro genId anomalies suggestions
  rcases suggestions with _ | sugs
  · refine ⟨?_, ?_, ?_⟩ <;> simp [layerList]
  · rw [layerList_some]
    rcases hcs : sugs.filterMap id with _ | ⟨c, cs⟩
    · refine ⟨?_, ?_, ?_⟩ <;> simp [buildLayers]
    · rw [buildLayers]
      have hrest := buildLayers_visible_false genId anomalies cs 1 (by decide)
      have ht : (getChoroplethAnomaliesLayer (genId 0) anomalies c ((0 : Nat) == 0) ::
          buildLayers genId anomalies cs 1).take 1 =
          [getChoroplethAnomaliesLayer (genId 0) anomalies c ((0 : Nat) == 0)] := rfl
      have hd : (getChoroplethAnomaliesLayer (genId 0) anomalies c ((0 : Nat) == 0) ::
          buildLayers genId anomalies cs 1).drop 1 =
          buildLayers genId anomalies cs 1 := rfl
      refine ⟨?_, ?_, ?_⟩
      · intro L hL
        rw [ht] at hL
        obtain rfl := List.mem_singleton.mp hL
        rfl
      · intro L hL
        rw [hd] at hL
        exact hrest L hL
      · rw [List.filter_cons]
        have hfilter : (buildLayers genId anomalies cs 1).filter (fun L => L.visible) = [] := by
          rw [List.filter_eq_nil_iff]
          intro L hL
          simp [hrest L hL]
        rw [hfilter]
        split <;> simp

/-- C8, witness: a single non-null suggestion produces a visible first
layer. -/
theorem claim_C8_witness :
    (getChoroplethAnomaliesLayer "id" [] ⟨"world_countries", "iso2", "j1"⟩ true).visible
      = true :=
  (claim_C8_visibility (fun _ => "id") []
      (some [some ⟨"world_countries", "iso2", "j1"⟩])).1
    (getChoroplethAnomaliesLayer "id" [] ⟨"world_countries", "iso2", "j1"⟩ true)
    (by decide)

/-! ## C6 and C9: the saved-objects registrations -/

/-- C6, counterexample: it is NOT the case that each of the two declared
types comes with migration hooks and import/export transform hooks: the
second `savedObjects.registerType` call (type "action_task_params")
passes neither `migrations` nor a `management` section. -/
theorem claim_C6_counterexample :
    ¬ ∀ r ∈ setupSavedObjects.1, r.hasMigrations = true ∧ r.management.isSome = true := by
  decide

/-- C6, amended: the routine declares the two persisted-entity types
"action" and "action_task_params" and calls each service's
`registerType` exactly twice (once per type, in that order); both types
carry field mappings; only "action" carries migration hooks and an
import/export management section (with getTitle, onExport and onImport
hooks), while "action_task_params" is registered with mappings only;
each type has its encrypted-attribute set registered with the
encrypted-saved-objects service. -/
theorem claim_C6_registrations :
    setupSavedObjects.1.length = 2 ∧
    setupSavedObjects.2.length = 2 ∧
    setupSavedObjects.1.map (fun r => r.name) = ["action", "action_task_params"] ∧
    setupSavedObjects.2.map (fun r => r.type) = ["action", "action_task_params"] ∧
    (∃ r ∈ setupSavedObjects.1, r.name = "action" ∧ r.hasMigrations = true ∧
      r.mappings = "action" ∧
      r.management = some ⟨"name", true, true, true, true⟩) ∧
    (∃ r ∈ setupSavedObjects.1, r.name = "action_task_params" ∧
      r.hasMigrations = false ∧ r.mappings = "action_task_params" ∧
      r.management = none) := by
  decide

/-- C9: the encrypted-attribute configuration is exactly: type "action"
encrypts the single attribute "secrets" and excludes the single
attribute "name" from AAD; type "action_task_params" encrypts the single
attribute "apiKey" and declares no AAD exclusions. -/
theorem claim_C9_encrypted_config :
    setupSavedObjects.2.map
        (fun r => (r.type, r.attributesToEncrypt, r.attributesToExcludeFromAAD)) =
      [("action", ["secrets"], some ["name"]),
       ("action_task_params", ["apiKey"], none)] := by
  decide
